import Mathlib

/-!
Shallow embedding of `api/core/llama_cpp_engine.py` (class `LlamaCppEngine`):
the chat-template application step, the non-streaming completion builder
`_create_chat_completion`, the streaming chunk generator
`_create_chat_completion_stream`, and the `create_chat_completion` dispatcher.

Raw generation events are Python dicts in the source; keys the code accesses
are modelled as `Option` fields, and a missing key produces the Python
`KeyError` (indexing an empty list produces `IndexError`).  The generator is
modelled as the list of chunks yielded before the run ends, paired with the
exception, if any, that ended it.
-/

/-- One entry of a raw event's `choices` list: the generated `text` and the
`finish_reason` (`none` while generation is in progress). -/
structure RawChoice where
  text : String
  finish_reason : Option String
deriving DecidableEq, Repr

/-- Token-usage counters of a non-streaming raw completion (`completion["usage"]`). -/
structure CompletionUsage where
  prompt_tokens : Nat
  completion_tokens : Nat
  total_tokens : Nat
deriving DecidableEq, Repr

/-- A raw generation event, as a dict: each field models the key of the same
name, `none` meaning the key is absent (a malformed event). -/
structure RawEvent where
  id : Option String
  created : Option Nat
  model : Option String
  choices : Option (List RawChoice)
  usage : Option CompletionUsage
deriving DecidableEq, Repr

/-- A raw event is well formed when every key the engine reads is present and
the `choices` list is non-empty. -/
def RawEvent.wf (e : RawEvent) : Bool :=
  e.id.isSome && e.created.isSome && e.model.isSome &&
    match e.choices with
    | some (_ :: _) => true
    | _ => false

/-- Python exception raised by the engine's dict/list accesses.
`malformedUpstreamOutput` is modelled from the spec: the spec names a
`MalformedUpstreamOutputError` for malformed raw events; no such error class
exists in the source, which is why it is a separate constructor that the
embedded code can be compared against. -/
inductive PyError where
  | keyError (key : String)
  | indexError (idx : Nat)
  | malformedUpstreamOutput
deriving DecidableEq, Repr

deriving instance DecidableEq for Except

/-- Python `d[key]` on a dict field: the value when present, `KeyError` otherwise. -/
def getField (v : Option α) (key : String) : Except PyError α :=
  match v with
  | some x => Except.ok x
  | none => Except.error (PyError.keyError key)

/-- Python `xs[i]` on a list: the element when in range, `IndexError` otherwise. -/
def listGet (xs : List α) (i : Nat) : Except PyError α :=
  match xs.get? i with
  | some x => Except.ok x
  | none => Except.error (PyError.indexError i)

/-- Python `str.strip()`: remove leading and trailing whitespace. -/
def pyStrip (s : String) : String :=
  String.mk (((s.data.dropWhile Char.isWhitespace).reverse.dropWhile Char.isWhitespace).reverse)

/-- `ChatCompletionMessage(role=..., content=...)`. -/
structure ChatCompletionMessage where
  role : String
  content : String
deriving DecidableEq, Repr

/-- `Choice` of the non-streaming public shape. -/
structure Choice where
  index : Nat
  message : ChatCompletionMessage
  finish_reason : String
  logprobs : Option Unit
deriving DecidableEq, Repr

/-- `ChatCompletion`, the non-streaming public shape. -/
structure ChatCompletion where
  id : String
  choices : List Choice
  created : Nat
  model : String
  object : String
  usage : CompletionUsage
deriving DecidableEq, Repr

/-- `ChoiceDelta`: both fields default to `None` as in the source
(`ChoiceDelta()` is the empty delta, `ChoiceDelta(content=x)` sets no role). -/
structure ChoiceDelta where
  role : Option String := none
  content : Option String := none
deriving DecidableEq, Repr

/-- `Choice` of the streaming chunk shape. -/
structure ChunkChoice where
  index : Nat
  delta : ChoiceDelta
  finish_reason : Option String
  logprobs : Option Unit
deriving DecidableEq, Repr

/-- `ChatCompletionChunk`, the streaming public shape. -/
structure ChatCompletionChunk where
  id : String
  choices : List ChunkChoice
  created : Nat
  model : String
  object : String
deriving DecidableEq, Repr

namespace LlamaCppEngine

/-- `LlamaCppEngine._create_chat_completion`: dict accesses in source order
(`choices`, then `[0]`, then `usage`, `id`, `created`, `model`); the message
content is the first choice's text with `.strip()` applied, the finish reason
is the literal `"stop"`, and the id is `"chat" + completion["id"]`. -/
def _create_chat_completion (completion : RawEvent) : Except PyError ChatCompletion :=
  match getField completion.choices "choices" with
  | Except.error e => Except.error e
  | Except.ok chs =>
    match listGet chs 0 with
    | Except.error e => Except.error e
    | Except.ok c0 =>
      let message : ChatCompletionMessage := { role := "assistant", content := pyStrip c0.text }
      let choice : Choice :=
        { index := 0, message := message, finish_reason := "stop", logprobs := none }
      match getField completion.usage "usage" with
      | Except.error e => Except.error e
      | Except.ok usage =>
        match getField completion.id "id" with
        | Except.error e => Except.error e
        | Except.ok cid =>
          match getField completion.created "created" with
          | Except.error e => Except.error e
          | Except.ok created =>
            match getField completion.model "model" with
            | Except.error e => Except.error e
            | Except.ok model =>
              Except.ok
                { id := "chat" ++ cid, choices := [choice], created := created,
                  model := model, object := "chat.completion", usage := usage }

/-- The header chunk yielded once at `i == 0` by
`_create_chat_completion_stream`: delta role `"assistant"`, empty content,
finish reason `None`. -/
def headerChunk (s : String) (n : Nat) (m : String) : ChatCompletionChunk :=
  { id := "chat" ++ s,
    choices := [{ index := 0,
                  delta := { role := some "assistant", content := some "" },
                  finish_reason := none, logprobs := none }],
    created := n, model := m, object := "chat.completion.chunk" }

/-- The per-event chunk yielded by `_create_chat_completion_stream` for a raw
choice `c`: content delta carrying `c.text` while `finish_reason` is `None`,
empty delta otherwise; the chunk's finish reason is `c.finish_reason` verbatim. -/
def eventChunk (s : String) (n : Nat) (m : String) (c : RawChoice) : ChatCompletionChunk :=
  { id := "chat" ++ s,
    choices := [{ index := 0,
                  delta := if c.finish_reason = none
                           then { content := some c.text }
                           else { },
                  finish_reason := c.finish_reason, logprobs := none }],
    created := n, model := m, object := "chat.completion.chunk" }

/-- Body of the `for i, output in enumerate(completion)` loop: the chunks
yielded for the event at index `i`, and the exception that aborts the loop, if
any.  Accesses follow source order: `id`, `created`, `model`, then for `i == 0`
the header chunk is yielded, then `choices` and `choices[0]` are read. -/
def streamStep (i : Nat) (output : RawEvent) :
    List ChatCompletionChunk × Option PyError :=
  match getField output.id "id" with
  | Except.error e => ([], some e)
  | Except.ok idv =>
    match getField output.created "created" with
    | Except.error e => ([], some e)
    | Except.ok crv =>
      match getField output.model "model" with
      | Except.error e => ([], some e)
      | Except.ok mdv =>
        let header : List ChatCompletionChunk :=
          if i = 0 then [headerChunk idv crv mdv] else []
        match getField output.choices "choices" with
        | Except.error e => (header, some e)
        | Except.ok chs =>
          match listGet chs 0 with
          | Except.error e => (header, some e)
          | Except.ok c0 => (header ++ [eventChunk idv crv mdv c0], none)

/-- The loop of `_create_chat_completion_stream`, threading the enumeration
index: yields every event's chunks in order and stops at the first exception. -/
def streamAux : Nat → List RawEvent → List ChatCompletionChunk × Option PyError
  | _, [] => ([], none)
  | i, output :: rest =>
    match streamStep i output with
    | (chunks, some e) => (chunks, some e)
    | (chunks, none) =>
      let r := streamAux (i + 1) rest
      (chunks ++ r.1, r.2)

/-- `LlamaCppEngine._create_chat_completion_stream` on the raw event sequence
produced by the model: the full list of yielded chunks, plus the exception
that ended the generator, if any. -/
def _create_chat_completion_stream (events : List RawEvent) :
    List ChatCompletionChunk × Option PyError :=
  streamAux 0 events

/-- The keyword arguments `create_chat_completion` inspects: the `stream` key
of the kwargs dict, absent or a boolean. -/
structure Kwargs where
  stream : Option Bool
deriving DecidableEq, Repr

/-- The generation capability (`self.model.create_completion`): what it would
return for the prompt in non-streaming mode (one raw event) and in streaming
mode (a raw event sequence). -/
structure GenCapability where
  single : RawEvent
  streamed : List RawEvent
deriving DecidableEq, Repr

/-- The two return shapes of `create_chat_completion`. -/
inductive ChatCompletionResult where
  | chunks (out : List ChatCompletionChunk × Option PyError)
  | completion (out : Except PyError ChatCompletion)
deriving Repr

/-- `LlamaCppEngine.create_chat_completion`: branch on
`kwargs.get("stream", False)` between the streaming and non-streaming paths. -/
def create_chat_completion (gen : GenCapability) (kwargs : Kwargs) : ChatCompletionResult :=
  if kwargs.stream.getD false then
    ChatCompletionResult.chunks (_create_chat_completion_stream gen.streamed)
  else
    ChatCompletionResult.completion (_create_chat_completion gen.single)

end LlamaCppEngine

/-- A chat message as passed to `apply_chat_template`. -/
structure ChatMessage where
  role : String
  content : String
deriving DecidableEq, Repr

/-- Opaque stand-in for the dict payloads of the `functions` and `tools`
arguments; the engine never inspects them, it only passes them through. -/
abbrev JsonDict := List (String × String)

/-- A prompt adapter as used by the engine: whether it declares function-call
support, its `postprocess_messages` capability, and its own
`apply_chat_template` rendering function.  Behaviour of the two functions is
adapter-specific and opaque to the engine. -/
structure PromptAdapter where
  function_call_available : Bool
  postprocess_messages :
    List ChatMessage → Option (List JsonDict) → Option (List JsonDict) → List ChatMessage
  apply_chat_template : List ChatMessage → String

namespace LlamaCppEngine

/-- `LlamaCppEngine.apply_chat_template`: when the adapter declares
function-call support, `messages` is reassigned to
`postprocess_messages(messages, functions, tools)` (unconditionally, with the
given `functions`/`tools`, present or not); the adapter's template is then
applied to the resulting list. -/
def apply_chat_template (adapter : PromptAdapter) (messages : List ChatMessage)
    (functions : Option (List JsonDict)) (tools : Option (List JsonDict)) : String :=
  let messages :=
    if adapter.function_call_available then
      adapter.postprocess_messages messages functions tools
    else messages
  adapter.apply_chat_template messages

end LlamaCppEngine

/-- A well-formed non-streaming raw event: the spec's example text with
surrounding whitespace and a raw finish reason of `"length"`. -/
def rawEventExample : RawEvent :=
  { id := some "cmpl-1", created := some 123, model := some "llama",
    choices := some [{ text := "  hello world  ", finish_reason := some "length" }],
    usage := some { prompt_tokens := 1, completion_tokens := 2, total_tokens := 3 } }

/-- A well-formed streaming raw event carrying a non-null finish reason. -/
def finishEvent : RawEvent :=
  { id := some "a", created := some 1, model := some "m",
    choices := some [{ text := "", finish_reason := some "stop" }], usage := none }

/-- A well-formed streaming raw event still in progress (null finish reason). -/
def extraEvent : RawEvent :=
  { id := some "b", created := some 2, model := some "m",
    choices := some [{ text := "more", finish_reason := none }], usage := none }

/-- A malformed raw event: the `choices` key is absent. -/
def noChoicesEvent : RawEvent :=
  { id := some "x", created := some 7, model := some "m", choices := none,
    usage := some { prompt_tokens := 1, completion_tokens := 1, total_tokens := 2 } }

/-- A function-calling adapter whose postprocessing step observably rewrites
the message list (it appends a system message), used to test whether the
engine invokes postprocessing. -/
def fcAdapter : PromptAdapter :=
  { function_call_available := true,
    postprocess_messages := fun ms _ _ => ms ++ [{ role := "system", content := "inlined" }],
    apply_chat_template := fun ms =>
      String.intercalate "; " (ms.map fun msg => msg.role ++ ": " ++ msg.content) }

/-- A concrete generation capability used to exercise `create_chat_completion`. -/
def genExample : LlamaCppEngine.GenCapability :=
  { single := rawEventExample, streamed := [finishEvent, extraEvent] }

/-- The completion the non-streaming path builds from `rawEventExample`. -/
def chatCompletionExample : ChatCompletion :=
  { id := "chatcmpl-1",
    choices := [{ index := 0,
                  message := { role := "assistant", content := "hello world" },
                  finish_reason := "stop", logprobs := none }],
    created := 123, model := "llama", object := "chat.completion",
    usage := { prompt_tokens := 1, completion_tokens := 2, total_tokens := 3 } }

open LlamaCppEngine

/-- A well-formed raw event decomposes into its present fields. -/
theorem RawEvent.wf_destruct (e : RawEvent) (h : e.wf = true) :
    ∃ s n m c cs, e.id = some s ∧ e.created = some n ∧ e.model = some m ∧
      e.choices = some (c :: cs) := by
  rcases e with ⟨oid, ocr, omd, och, ou⟩
  rcases oid with _ | s <;> rcases ocr with _ | n <;> rcases omd with _ | m <;>
    simp [RawEvent.wf] at h
  rcases och with _ | (_ | ⟨c, cs⟩) <;> simp at h
  exact ⟨s, n, m, c, cs, rfl, rfl, rfl, rfl⟩

/-- Evaluation of the streaming loop body on a well-formed event. -/
theorem streamStep_eq (i : Nat) (e : RawEvent) (s m : String) (n : Nat)
    (c : RawChoice) (cs : List RawChoice)
    (hid : e.id = some s) (hcr : e.created = some n) (hm : e.model = some m)
    (hch : e.choices = some (c :: cs)) :
    streamStep i e =
      ((if i = 0 then [headerChunk s n m] else []) ++ [eventChunk s n m c], none) := by
  simp [streamStep, getField, listGet, hid, hcr, hm, hch]

/-- Every list of chunks the loop body can yield is empty, a lone header, a
lone event chunk (only at positive index), or a header followed by an event
chunk (only at index 0); the header or event chunk always carries the event's
own identifier, timestamp and model name. -/
theorem streamStep_shape (i : Nat) (e : RawEvent) :
    (streamStep i e).1 = [] ∨
    ∃ s n m, e.id = some s ∧ e.created = some n ∧ e.model = some m ∧
      ((i = 0 ∧ (streamStep i e).1 = [headerChunk s n m]) ∨
       (i ≠ 0 ∧ ∃ c, (streamStep i e).1 = [eventChunk s n m c]) ∨
       (i = 0 ∧ ∃ c, (streamStep i e).1 = [headerChunk s n m, eventChunk s n m c])) := by
  rcases e with ⟨oid, ocr, omd, och, ou⟩
  rcases oid with _ | s
  · exact Or.inl (by simp [streamStep, getField])
  rcases ocr with _ | n
  · exact Or.inl (by simp [streamStep, getField])
  rcases omd with _ | m
  · exact Or.inl (by simp [streamStep, getField])
  rcases och with _ | l
  · by_cases hi : i = 0
    · exact Or.inr ⟨s, n, m, rfl, rfl, rfl,
        Or.inl ⟨hi, by simp [streamStep, getField, hi]⟩⟩
    · exact Or.inl (by simp [streamStep, getField, hi])
  rcases l with _ | ⟨c, cs⟩
  · by_cases hi : i = 0
    · exact Or.inr ⟨s, n, m, rfl, rfl, rfl,
        Or.inl ⟨hi, by simp [streamStep, getField, listGet, hi]⟩⟩
    · exact Or.inl (by simp [streamStep, getField, listGet, hi])
  · by_cases hi : i = 0
    · exact Or.inr ⟨s, n, m, rfl, rfl, rfl,
        Or.inr (Or.inr ⟨hi, c, by simp [streamStep, getField, listGet, hi]⟩)⟩
    · exact Or.inr ⟨s, n, m, rfl, rfl, rfl,
        Or.inr (Or.inl ⟨hi, c, by simp [streamStep, getField, listGet, hi]⟩)⟩

/-- The event chunk's delta never announces a role, whatever the finish reason. -/
theorem eventChunk_delta_role (s : String) (n : Nat) (m : String) (c : RawChoice) :
    ∀ cc ∈ (eventChunk s n m c).choices, cc.delta.role = none := by
  intro cc hcc
  by_cases h : c.finish_reason = none <;> simp [eventChunk, h] at hcc <;>
    simp [hcc]

/-- Every chunk produced by the loop comes from one of the input events, at an
index at least the starting index. -/
theorem streamAux_mem : ∀ (es : List RawEvent) (i : Nat) (ch : ChatCompletionChunk),
    ch ∈ (streamAux i es).1 → ∃ e ∈ es, ∃ j, i ≤ j ∧ ch ∈ (streamStep j e).1 := by
  intro es
  induction es with
  | nil => intro i ch h; simp [streamAux] at h
  | cons e rest ih =>
    intro i ch h
    rcases hstep : streamStep i e with ⟨chunks, err⟩
    cases err with
    | some pe =>
      rw [streamAux, hstep] at h
      exact ⟨e, by simp, i, le_refl i, by rw [hstep]; exact h⟩
    | none =>
      rw [streamAux, hstep] at h
      simp only [List.mem_append] at h
      rcases h with h | h
      · exact ⟨e, by simp, i, le_refl i, by rw [hstep]; exact h⟩
      · rcases ih (i + 1) ch h with ⟨e', he', j, hij, hj⟩
        exact ⟨e', by simp [he'], j, by omega, hj⟩

/-- At a positive starting index the loop yields exactly one chunk per
well-formed event and ends without an exception. -/
theorem streamAux_length_pos : ∀ (es : List RawEvent), (∀ e ∈ es, e.wf = true) →
    ∀ i, i ≠ 0 → (streamAux i es).1.length = es.length ∧ (streamAux i es).2 = none := by
  intro es
  induction es with
  | nil => intro _ i _; simp [streamAux]
  | cons e rest ih =>
    intro h i hi
    rcases RawEvent.wf_destruct e (h e (by simp)) with ⟨s, n, m, c, cs, hid, hcr, hm, hch⟩
    have hstep := streamStep_eq i e s m n c cs hid hcr hm hch
    rw [if_neg hi] at hstep
    have hrest := ih (fun x hx => h x (by simp [hx])) (i + 1) (by omega)
    rw [streamAux, hstep]
    simp [hrest.1, hrest.2]

/-- C1 counterexample: with an adapter that declares function-call support,
`apply_chat_template` called with `functions = none` and `tools = none` does
NOT render the original message list — the postprocessing step runs anyway,
contradicting the claim that it runs only when functions or tools are given. -/
theorem C1_counterexample :
    fcAdapter.function_call_available = true ∧
    LlamaCppEngine.apply_chat_template fcAdapter [{ role := "user", content := "hi" }]
        none none ≠
      fcAdapter.apply_chat_template [{ role := "user", content := "hi" }] := by
  constructor
  · rfl
  · decide

/-- C1 (amended): `apply_chat_template` runs the adapter's message
postprocessing step if and only if the adapter declares function-calling
support, regardless of whether `functions` or `tools` are given; only when
support is not declared is the template applied to the original, unmodified
message list. -/
theorem C1_postprocess_iff_function_call (adapter : PromptAdapter)
    (messages : List ChatMessage)
    (functions : Option (List JsonDict)) (tools : Option (List JsonDict)) :
    (adapter.function_call_available = true →
      LlamaCppEngine.apply_chat_template adapter messages functions tools =
        adapter.apply_chat_template (adapter.postprocess_messages messages functions tools)) ∧
    (adapter.function_call_available = false →
      LlamaCppEngine.apply_chat_template adapter messages functions tools =
        adapter.apply_chat_template messages) := by
  constructor <;> intro h <;> simp [LlamaCppEngine.apply_chat_template, h]

/-- C1 witness: at the concrete function-calling adapter, the rendered prompt
is the template applied to the postprocessed message list. -/
theorem C1_witness :
    LlamaCppEngine.apply_chat_template fcAdapter [{ role := "user", content := "hi" }]
        none none =
      fcAdapter.apply_chat_template
        (fcAdapter.postprocess_messages [{ role := "user", content := "hi" }] none none) :=
  (C1_postprocess_iff_function_call fcAdapter [{ role := "user", content := "hi" }]
    none none).1 rfl

/-- C2: for every raw event whose accessed fields are present, the
non-streaming path returns a completion whose sole message has role
`"assistant"`, content equal to the first choice's text stripped of
surrounding whitespace, and finish reason exactly `"stop"`, whatever the raw
finish reason was. -/
theorem C2_create_chat_completion (e : RawEvent) (s m : String) (n : Nat)
    (c : RawChoice) (cs : List RawChoice) (u : CompletionUsage)
    (hid : e.id = some s) (hcr : e.created = some n) (hm : e.model = some m)
    (hch : e.choices = some (c :: cs)) (hu : e.usage = some u) :
    LlamaCppEngine._create_chat_completion e =
      Except.ok
        { id := "chat" ++ s,
          choices := [{ index := 0,
                        message := { role := "assistant", content := pyStrip c.text },
                        finish_reason := "stop", logprobs := none }],
          created := n, model := m, object := "chat.completion", usage := u } := by
  simp [LlamaCppEngine._create_chat_completion, getField, listGet, hid, hcr, hm, hch, hu]

/-- C2 witness: the spec's example — raw text `"  hello world  "` with raw
finish reason `"length"` yields content `"hello world"` and finish reason
`"stop"`. -/
theorem C2_witness :
    LlamaCppEngine._create_chat_completion rawEventExample =
      Except.ok
        { id := "chatcmpl-1",
          choices := [{ index := 0,
                        message := { role := "assistant", content := "hello world" },
                        finish_reason := "stop", logprobs := none }],
          created := 123, model := "llama", object := "chat.completion",
          usage := { prompt_tokens := 1, completion_tokens := 2, total_tokens := 3 } } := by
  have h := C2_create_chat_completion rawEventExample "cmpl-1" "llama" 123
    { text := "  hello world  ", finish_reason := some "length" } []
    { prompt_tokens := 1, completion_tokens := 2, total_tokens := 3 }
    rfl rfl rfl rfl rfl
  exact h

/-- C3: the chunk the streaming loop derives from a raw event (its last
yielded chunk) is `eventChunk`: while the event's finish reason is null the
delta carries exactly the event's text verbatim and the chunk's finish reason
is null; when the finish reason is non-null the delta is empty (no role, no
content) and the chunk's finish reason is the event's value verbatim. -/
theorem C3_chunk_shape (i : Nat) (e : RawEvent) (s m : String) (n : Nat)
    (c : RawChoice) (cs : List RawChoice)
    (hid : e.id = some s) (hcr : e.created = some n) (hm : e.model = some m)
    (hch : e.choices = some (c :: cs)) :
    (streamStep i e).1.getLast? = some (eventChunk s n m c) ∧
    (c.finish_reason = none →
      (eventChunk s n m c).choices =
        [{ index := 0, delta := { role := none, content := some c.text },
           finish_reason := none, logprobs := none }]) ∧
    (∀ r, c.finish_reason = some r →
      (eventChunk s n m c).choices =
        [{ index := 0, delta := { role := none, content := none },
           finish_reason := some r, logprobs := none }]) := by
  refine ⟨?_, ?_, ?_⟩
  · rw [streamStep_eq i e s m n c cs hid hcr hm hch]
    by_cases hi : i = 0 <;> simp [hi]
  · intro h; simp [eventChunk, h]
  · intro r h; simp [eventChunk, h]

/-- C3 witness: a terminal raw event with finish reason `"stop"` produces an
event chunk with empty delta and finish reason `"stop"` verbatim. -/
theorem C3_witness :
    (streamStep 1 finishEvent).1.getLast? =
      some (eventChunk "a" 1 "m" { text := "", finish_reason := some "stop" }) ∧
    (eventChunk "a" 1 "m" { text := "", finish_reason := some "stop" }).choices =
      [{ index := 0, delta := { role := none, content := none },
         finish_reason := some "stop", logprobs := none }] := by
  have h := C3_chunk_shape 1 finishEvent "a" "m" 1
    { text := "", finish_reason := some "stop" } [] rfl rfl rfl rfl
  exact ⟨h.1, h.2.2 "stop" rfl⟩

/-- At a positive loop index no chunk's delta ever announces a role (the
header chunk exists only at index 0). -/
theorem streamAux_pos_delta_role (es : List RawEvent) (i : Nat) (hi : i ≠ 0) :
    ∀ ch ∈ (streamAux i es).1, ∀ cc ∈ ch.choices, cc.delta.role = none := by
  intro ch hch cc hcc
  rcases streamAux_mem es i ch hch with ⟨e, _, j, hij, hj⟩
  rcases streamStep_shape j e with hempty | ⟨s, n, m, _, _, _, hshape⟩
  · rw [hempty] at hj; simp at hj
  rcases hshape with ⟨hj0, _⟩ | ⟨_, c, heq⟩ | ⟨hj0, _, _⟩
  · exact absurd (by omega : i = 0) hi
  · rw [heq] at hj
    simp only [List.mem_singleton] at hj
    subst hj
    exact eventChunk_delta_role s n m c cc hcc
  · exact absurd (by omega : i = 0) hi

/-- Every chunk the loop yields carries its source event's identifier
(prefixed with `"chat"`), creation timestamp and model name. -/
theorem streamStep_mem_src (j : Nat) (e : RawEvent) :
    ∀ ch ∈ (streamStep j e).1, ∃ s, e.id = some s ∧ ch.id = "chat" ++ s ∧
      e.created = some ch.created ∧ e.model = some ch.model := by
  intro ch hch
  rcases streamStep_shape j e with hempty | ⟨s, n, m, hid, hcr, hm, hshape⟩
  · rw [hempty] at hch; simp at hch
  refine ⟨s, hid, ?_⟩
  rcases hshape with ⟨_, heq⟩ | ⟨_, c, heq⟩ | ⟨_, c, heq⟩ <;> rw [heq] at hch <;>
    simp only [List.mem_singleton, List.mem_cons, List.not_mem_nil, or_false] at hch
  · subst hch; exact ⟨rfl, hcr, hm⟩
  · subst hch; exact ⟨rfl, hcr, hm⟩
  · rcases hch with hch | hch <;> subst hch
    · exact ⟨rfl, hcr, hm⟩
    · exact ⟨rfl, hcr, hm⟩

/-- Every chunk the loop yields has exactly one choice, with index 0. -/
theorem streamStep_mem_choice (j : Nat) (e : RawEvent) :
    ∀ ch ∈ (streamStep j e).1, ∃ cc, ch.choices = [cc] ∧ cc.index = 0 := by
  intro ch hch
  rcases streamStep_shape j e with hempty | ⟨s, n, m, _, _, _, hshape⟩
  · rw [hempty] at hch; simp at hch
  rcases hshape with ⟨_, heq⟩ | ⟨_, c, heq⟩ | ⟨_, c, heq⟩ <;> rw [heq] at hch <;>
    simp only [List.mem_singleton, List.mem_cons, List.not_mem_nil, or_false] at hch
  · subst hch; exact ⟨_, rfl, rfl⟩
  · subst hch; exact ⟨_, rfl, rfl⟩
  · rcases hch with hch | hch <;> subst hch
    · exact ⟨_, rfl, rfl⟩
    · exact ⟨_, rfl, rfl⟩

/-- Success of `_create_chat_completion` forces every accessed field to be
present and determines the result completely. -/
theorem _create_chat_completion_ok_inv (e : RawEvent) (r : ChatCompletion)
    (hok : LlamaCppEngine._create_chat_completion e = Except.ok r) :
    ∃ s n m c cs u, e.id = some s ∧ e.created = some n ∧ e.model = some m ∧
      e.choices = some (c :: cs) ∧ e.usage = some u ∧
      r = { id := "chat" ++ s,
            choices := [{ index := 0,
                          message := { role := "assistant", content := pyStrip c.text },
                          finish_reason := "stop", logprobs := none }],
            created := n, model := m, object := "chat.completion", usage := u } := by
  rcases e with ⟨oid, ocr, omd, och, ou⟩
  rcases och with _ | (_ | ⟨c, cs⟩)
  · simp [LlamaCppEngine._create_chat_completion, getField] at hok
  · simp [LlamaCppEngine._create_chat_completion, getField, listGet] at hok
  rcases ou with _ | u
  · simp [LlamaCppEngine._create_chat_completion, getField, listGet] at hok
  rcases oid with _ | s
  · simp [LlamaCppEngine._create_chat_completion, getField, listGet] at hok
  rcases ocr with _ | n
  · simp [LlamaCppEngine._create_chat_completion, getField, listGet] at hok
  rcases omd with _ | m
  · simp [LlamaCppEngine._create_chat_completion, getField, listGet] at hok
  simp [LlamaCppEngine._create_chat_completion, getField, listGet] at hok
  exact ⟨s, n, m, c, cs, u, rfl, rfl, rfl, rfl, rfl, hok.symm⟩

/-- C4: on a sequence of well-formed raw events the streaming path yields
exactly N+1 chunks when the sequence has N ≥ 1 events (a header chunk plus one
chunk per event), and zero chunks when the sequence is empty. -/
theorem C4_stream_chunk_count (events : List RawEvent)
    (h : ∀ e ∈ events, e.wf = true) :
    (events = [] → (LlamaCppEngine._create_chat_completion_stream events).1 = []) ∧
    (events ≠ [] →
      (LlamaCppEngine._create_chat_completion_stream events).1.length =
        events.length + 1) := by
  constructor
  · intro he; subst he; rfl
  · intro hne
    rcases events with _ | ⟨e, rest⟩
    · exact absurd rfl hne
    rcases RawEvent.wf_destruct e (h e (by simp)) with ⟨s, n, m, c, cs, hid, hcr, hm, hch⟩
    have hstep := streamStep_eq 0 e s m n c cs hid hcr hm hch
    rw [if_pos rfl] at hstep
    have hrest := streamAux_length_pos rest (fun x hx => h x (by simp [hx])) 1 (by omega)
    unfold LlamaCppEngine._create_chat_completion_stream
    rw [streamAux, hstep]
    simp [hrest.1]

/-- C4 witness: two well-formed raw events produce exactly three chunks. -/
theorem C4_witness :
    (LlamaCppEngine._create_chat_completion_stream [finishEvent, extraEvent]).1.length = 3 :=
  (C4_stream_chunk_count [finishEvent, extraEvent] (by decide)).2 (by decide)

/-- C5: for every non-empty raw-event sequence whose first event is well
formed, the first chunk of the stream is the synthetic header chunk (delta
role `"assistant"`, empty content, finish reason null), the first event's own
content chunk comes right after it at position 1, and no later chunk ever
announces a role again — the header exists exactly once, at the front. -/
theorem C5_header_chunk (e : RawEvent) (rest : List RawEvent) (h : e.wf = true) :
    (∃ s n m c cs,
      e.id = some s ∧ e.created = some n ∧ e.model = some m ∧
      e.choices = some (c :: cs) ∧
      (LlamaCppEngine._create_chat_completion_stream (e :: rest)).1.head? =
        some (headerChunk s n m) ∧
      (LlamaCppEngine._create_chat_completion_stream (e :: rest)).1.get? 1 =
        some (eventChunk s n m c)) ∧
    ∀ ch ∈ (LlamaCppEngine._create_chat_completion_stream (e :: rest)).1.tail,
      ∀ cc ∈ ch.choices, cc.delta.role = none := by
  rcases RawEvent.wf_destruct e h with ⟨s, n, m, c, cs, hid, hcr, hm, hch⟩
  have hstep := streamStep_eq 0 e s m n c cs hid hcr hm hch
  rw [if_pos rfl] at hstep
  have hmain : (LlamaCppEngine._create_chat_completion_stream (e :: rest)).1 =
      headerChunk s n m :: eventChunk s n m c :: (streamAux 1 rest).1 := by
    unfold LlamaCppEngine._create_chat_completion_stream
    rw [streamAux, hstep]
    simp
  constructor
  · exact ⟨s, n, m, c, cs, hid, hcr, hm, hch, by rw [hmain]; rfl, by rw [hmain]; rfl⟩
  · rw [hmain]
    intro ch hch cc hcc
    simp only [List.tail_cons, List.mem_cons] at hch
    rcases hch with hch | hch
    · subst hch; exact eventChunk_delta_role s n m c cc hcc
    · exact streamAux_pos_delta_role rest 1 (by omega) ch hch cc hcc

/-- C5 witness: a concrete two-event stream starts with the header chunk and
no later chunk announces a role. -/
theorem C5_witness :
    (∃ s n m c cs,
      finishEvent.id = some s ∧ finishEvent.created = some n ∧
      finishEvent.model = some m ∧ finishEvent.choices = some (c :: cs) ∧
      (LlamaCppEngine._create_chat_completion_stream [finishEvent, extraEvent]).1.head? =
        some (headerChunk s n m) ∧
      (LlamaCppEngine._create_chat_completion_stream [finishEvent, extraEvent]).1.get? 1 =
        some (eventChunk s n m c)) ∧
    ∀ ch ∈ (LlamaCppEngine._create_chat_completion_stream [finishEvent, extraEvent]).1.tail,
      ∀ cc ∈ ch.choices, cc.delta.role = none :=
  C5_header_chunk finishEvent [extraEvent] (by decide)

/-- C6 counterexample: a raw event carrying finish reason `"stop"` followed by
a further raw event — the stream does NOT terminate at the finish-reason
chunk: a third chunk (content `"more"`) is emitted after it, contradicting the
claim that nothing follows the chunk with the non-null finish reason. -/
theorem C6_counterexample :
    (LlamaCppEngine._create_chat_completion_stream [finishEvent, extraEvent]).1.map
        (fun ch => ch.choices.map fun cc => (cc.delta.content, cc.finish_reason)) =
      [[(some "", none)], [(none, some "stop")], [(some "more", none)]] := by
  decide

/-- C6 (amended): the streaming loop never stops at a non-null finish reason —
as long as no exception occurred, the chunks produced for `es ++ esPost` are
the chunks for `es` (whatever finish reasons they carry) followed by the
chunks for `esPost`; the stream ends with the input sequence, not at the
first terminal event. -/
theorem C6_stream_continues (es esPost : List RawEvent) :
    ∀ i, (streamAux i es).2 = none →
      streamAux i (es ++ esPost) =
        ((streamAux i es).1 ++ (streamAux (i + es.length) esPost).1,
         (streamAux (i + es.length) esPost).2) := by
  induction es with
  | nil => intro i _; simp [streamAux]
  | cons e rest ih =>
    intro i h
    rcases hstep : streamStep i e with ⟨chunks, err⟩
    cases err with
    | some pe =>
      rw [streamAux, hstep] at h
      simp at h
    | none =>
      rw [streamAux, hstep] at h
      simp only at h
      have h2 := ih (i + 1) h
      have hidx : i + (e :: rest).length = i + 1 + rest.length := by
        simp [List.length_cons]; omega
      rw [hidx, List.cons_append, streamAux, hstep, h2, streamAux, hstep]
      simp [List.append_assoc]

/-- C6 witness: the chunks for a terminal event followed by a further event
decompose as the terminal event's chunks followed by the further event's. -/
theorem C6_witness :
    streamAux 0 ([finishEvent] ++ [extraEvent]) =
      ((streamAux 0 [finishEvent]).1 ++
         (streamAux (0 + [finishEvent].length) [extraEvent]).1,
       (streamAux (0 + [finishEvent].length) [extraEvent]).2) :=
  C6_stream_continues [finishEvent] [extraEvent] 0 rfl

/-- C7 counterexample: on a raw event with no `choices` key the non-streaming
path fails with Python's `KeyError "choices"`, not with the
`MalformedUpstreamOutputError` the claim names (no such error exists in the
code). -/
theorem C7_counterexample :
    LlamaCppEngine._create_chat_completion noChoicesEvent =
      Except.error (PyError.keyError "choices") ∧
    LlamaCppEngine._create_chat_completion noChoicesEvent ≠
      Except.error PyError.malformedUpstreamOutput := by
  decide

/-- C7 (amended): for every raw event missing the `choices` key, both
completion-building operations fail immediately with the field-lookup error
`KeyError "choices"` — they never succeed and no retry exists — rather than
with a dedicated malformed-upstream-output error. -/
theorem C7_key_error (e : RawEvent) (hch : e.choices = none) :
    LlamaCppEngine._create_chat_completion e =
      Except.error (PyError.keyError "choices") ∧
    (∀ r, LlamaCppEngine._create_chat_completion e ≠ Except.ok r) ∧
    (∀ s n m, e.id = some s → e.created = some n → e.model = some m →
      (LlamaCppEngine._create_chat_completion_stream [e]).2 =
        some (PyError.keyError "choices")) := by
  refine ⟨?_, ?_, ?_⟩
  · simp [LlamaCppEngine._create_chat_completion, getField, hch]
  · intro r
    simp [LlamaCppEngine._create_chat_completion, getField, hch]
  · intro s n m hid hcr hm
    unfold LlamaCppEngine._create_chat_completion_stream
    simp [streamAux, streamStep, getField, hid, hcr, hm, hch]

/-- C7 witness: the concrete malformed event makes both paths fail with
`KeyError "choices"`. -/
theorem C7_witness :
    LlamaCppEngine._create_chat_completion noChoicesEvent =
      Except.error (PyError.keyError "choices") ∧
    (LlamaCppEngine._create_chat_completion_stream [noChoicesEvent]).2 =
      some (PyError.keyError "choices") :=
  ⟨(C7_key_error noChoicesEvent rfl).1,
   (C7_key_error noChoicesEvent rfl).2.2 "x" 7 "m" rfl rfl rfl⟩

/-- At a positive loop index, the chunk at position `t` of the loop's output
is the event chunk built from the fields of the input event at position `t`
itself — each chunk is stamped with its own deriving event's data. -/
theorem streamAux_get_pos : ∀ (es : List RawEvent), (∀ e ∈ es, e.wf = true) →
    ∀ i, i ≠ 0 → ∀ t et, es.get? t = some et →
      ∃ s n m c cs, et.id = some s ∧ et.created = some n ∧ et.model = some m ∧
        et.choices = some (c :: cs) ∧
        (streamAux i es).1.get? t = some (eventChunk s n m c) := by
  intro es
  induction es with
  | nil => intro _ i _ t et het; simp at het
  | cons e rest ih =>
    intro hwf i hi t et het
    rcases RawEvent.wf_destruct e (hwf e (by simp)) with ⟨s, n, m, c, cs, hid, hcr, hm, hch⟩
    have hstep := streamStep_eq i e s m n c cs hid hcr hm hch
    rw [if_neg hi] at hstep
    have hlist : (streamAux i (e :: rest)).1 =
        eventChunk s n m c :: (streamAux (i + 1) rest).1 := by
      rw [streamAux, hstep]
      simp
    cases t with
    | zero =>
      obtain rfl : et = e := by simpa using het.symm
      exact ⟨s, n, m, c, cs, hid, hcr, hm, hch, by rw [hlist]; rfl⟩
    | succ u =>
      rcases ih (fun x hx => hwf x (by simp [hx])) (i + 1) (by omega) u et
          (by simpa using het) with ⟨s', n', m', c', cs', h1, h2, h3, h4, h5⟩
      refine ⟨s', n', m', c', cs', h1, h2, h3, h4, ?_⟩
      rw [hlist]
      simpa using h5

/-- C8: every public object carries the data of the raw event it derives
from: the non-streaming result has identifier `"chat"` ++ its input event's
identifier and that event's timestamp and model unchanged; in a stream of
well-formed events, the chunk at position t+1 is exactly the event chunk
built from the identifier (with `"chat"` prefix), timestamp, model name and
first choice of the raw event at position t, and the header chunk at position
0 carries the first event's data. -/
theorem C8_id_created_model (events : List RawEvent) (e : RawEvent)
    (r : ChatCompletion)
    (hok : LlamaCppEngine._create_chat_completion e = Except.ok r)
    (hwf : ∀ x ∈ events, x.wf = true) :
    (∃ s, e.id = some s ∧ r.id = "chat" ++ s ∧ e.created = some r.created ∧
      e.model = some r.model) ∧
    (∀ t et, events.get? t = some et →
      ∃ s n m c cs, et.id = some s ∧ et.created = some n ∧ et.model = some m ∧
        et.choices = some (c :: cs) ∧
        (LlamaCppEngine._create_chat_completion_stream events).1.get? (t + 1) =
          some (eventChunk s n m c) ∧
        (t = 0 →
          (LlamaCppEngine._create_chat_completion_stream events).1.get? 0 =
            some (headerChunk s n m))) := by
  constructor
  · rcases _create_chat_completion_ok_inv e r hok with
      ⟨s, n, m, c, cs, u, hid, hcr, hm, _, _, hr⟩
    subst hr
    exact ⟨s, hid, rfl, hcr, hm⟩
  · intro t et het
    rcases events with _ | ⟨e0, rest⟩
    · simp at het
    rcases RawEvent.wf_destruct e0 (hwf e0 (by simp)) with
      ⟨s0, n0, m0, c0, cs0, hid0, hcr0, hm0, hch0⟩
    have hstep := streamStep_eq 0 e0 s0 m0 n0 c0 cs0 hid0 hcr0 hm0 hch0
    rw [if_pos rfl] at hstep
    have hlist : (LlamaCppEngine._create_chat_completion_stream (e0 :: rest)).1 =
        headerChunk s0 n0 m0 :: eventChunk s0 n0 m0 c0 :: (streamAux 1 rest).1 := by
      unfold LlamaCppEngine._create_chat_completion_stream
      rw [streamAux, hstep]
      simp
    cases t with
    | zero =>
      obtain rfl : et = e0 := by simpa using het.symm
      exact ⟨s0, n0, m0, c0, cs0, hid0, hcr0, hm0, hch0,
        by rw [hlist]; rfl, fun _ => by rw [hlist]; rfl⟩
    | succ u =>
      rcases streamAux_get_pos rest (fun x hx => hwf x (by simp [hx])) 1 (by omega) u et
          (by simpa using het) with ⟨s', n', m', c', cs', h1, h2, h3, h4, h5⟩
      refine ⟨s', n', m', c', cs', h1, h2, h3, h4, ?_,
        fun h0 => absurd h0 (Nat.succ_ne_zero u)⟩
      rw [hlist]
      simpa using h5

/-- C8 witness: on a stream of two events with distinct identifiers,
timestamps and texts, the chunk at each position t+1 is the event chunk of
the event at position t, and the header carries the first event's data; the
concrete non-streaming result carries its input event's data. -/
theorem C8_witness :
    (∃ s, rawEventExample.id = some s ∧ chatCompletionExample.id = "chat" ++ s ∧
      rawEventExample.created = some chatCompletionExample.created ∧
      rawEventExample.model = some chatCompletionExample.model) ∧
    (∀ t et, [finishEvent, extraEvent].get? t = some et →
      ∃ s n m c cs, et.id = some s ∧ et.created = some n ∧ et.model = some m ∧
        et.choices = some (c :: cs) ∧
        (LlamaCppEngine._create_chat_completion_stream [finishEvent, extraEvent]).1.get?
            (t + 1) =
          some (eventChunk s n m c) ∧
        (t = 0 →
          (LlamaCppEngine._create_chat_completion_stream [finishEvent, extraEvent]).1.get?
              0 =
            some (headerChunk s n m))) :=
  C8_id_created_model [finishEvent, extraEvent] rawEventExample chatCompletionExample
    (by decide) (by decide)

/-- C9: every public object produced by either path contains exactly one
choice, and that choice's index is 0. -/
theorem C9_single_choice (events : List RawEvent) (e : RawEvent)
    (r : ChatCompletion)
    (hok : LlamaCppEngine._create_chat_completion e = Except.ok r) :
    (∃ c, r.choices = [c] ∧ c.index = 0) ∧
    ∀ ch ∈ (LlamaCppEngine._create_chat_completion_stream events).1,
      ∃ cc, ch.choices = [cc] ∧ cc.index = 0 := by
  constructor
  · rcases _create_chat_completion_ok_inv e r hok with
      ⟨s, n, m, c, cs, u, _, _, _, _, _, hr⟩
    subst hr
    exact ⟨_, rfl, rfl⟩
  · intro ch hch
    rcases streamAux_mem events 0 ch hch with ⟨es, _, j, _, hj⟩
    exact streamStep_mem_choice j es ch hj

/-- C9 witness: the concrete non-streaming result and every chunk of a
concrete stream have exactly one choice, of index 0. -/
theorem C9_witness :
    (∃ c, chatCompletionExample.choices = [c] ∧ c.index = 0) ∧
    ∀ ch ∈ (LlamaCppEngine._create_chat_completion_stream [finishEvent, extraEvent]).1,
      ∃ cc, ch.choices = [cc] ∧ cc.index = 0 :=
  C9_single_choice [finishEvent, extraEvent] rawEventExample chatCompletionExample
    (by decide)

/-- C10: `create_chat_completion` picks its output shape purely from the
`stream` option: the result is the streaming chunk sequence exactly when
`stream` is the boolean true, and the single aggregate completion otherwise,
including when `stream` is absent (the `kwargs.get("stream", False)` default). -/
theorem C10_stream_dispatch (gen : GenCapability) (kwargs : Kwargs) :
    ((∃ out, create_chat_completion gen kwargs = ChatCompletionResult.chunks out) ↔
      kwargs.stream = some true) ∧
    (kwargs.stream = some true →
      create_chat_completion gen kwargs =
        ChatCompletionResult.chunks
          (LlamaCppEngine._create_chat_completion_stream gen.streamed)) ∧
    (kwargs.stream = none →
      create_chat_completion gen kwargs =
        ChatCompletionResult.completion
          (LlamaCppEngine._create_chat_completion gen.single)) ∧
    (kwargs.stream = some false →
      create_chat_completion gen kwargs =
        ChatCompletionResult.completion
          (LlamaCppEngine._create_chat_completion gen.single)) := by
  rcases kwargs with ⟨st⟩
  rcases st with _ | b
  · simp [LlamaCppEngine.create_chat_completion]
  · rcases b <;> simp [LlamaCppEngine.create_chat_completion]

/-- C10 witness: at a concrete generation capability, `stream := some true`
returns the chunk sequence and an absent `stream` key returns the aggregate
completion. -/
theorem C10_witness :
    LlamaCppEngine.create_chat_completion genExample { stream := some true } =
      ChatCompletionResult.chunks
        (LlamaCppEngine._create_chat_completion_stream genExample.streamed) ∧
    LlamaCppEngine.create_chat_completion genExample { stream := none } =
      ChatCompletionResult.completion
        (LlamaCppEngine._create_chat_completion genExample.single) :=
  ⟨(C10_stream_dispatch genExample { stream := some true }).2.1 rfl,
   (C10_stream_dispatch genExample { stream := none }).2.2.1 rfl⟩
